import Mathlib

set_option autoImplicit false

/-! Shallow embedding of the `pid_set` Rust crate (`src/lib.rs`).

A `PidSet` holds the map `fd_pids : HashMap<u32, i32>` from PIDs to pidfd
file descriptors and the optional epoll file descriptor `epoll_fd`.
The `HashMap` is modelled as an association list with unique keys; its
iteration order is the list order.

Syscall results are supplied by an explicit environment `Env`: each
syscall consumes the head of the corresponding result list and appends a
record of the call to `Env.log`.  A result of `none` from an embedded
operation means the execution needed a syscall result beyond the supplied
script (e.g. it would keep blocking); every claim is about executions
that complete, i.e. return `some`.

The `std::io::Error` payload carried by the Rust errors is abstracted as
the raw negative return code of the failing syscall. -/

/-- PIDs (`type PID = u32` in the source). -/
abbrev PID := Nat

/-- File descriptors (`type FD = i32` in the source). -/
abbrev FD := Int

/-- Mirrors `enum PidSetError` from the source. -/
inductive PidSetError where
  | epollCreate (e : Int)
  | pidFdOpenSyscall (pid : PID) (e : Int)
  | epollCtl (e : Int)
  | epollWait (e : Int)
  | pidNotFound (pid : PID)
  | epollClose (e : Int)

/-- Log entry recording one OS call made by the embedded code. -/
inductive SysOp where
  | epollCreate1 (ret : Int)
  | pidfdOpen (pid : PID) (ret : Int)
  | epollCtlAdd (epfd fd : FD) (token : PID) (ret : Int)
  | epollCtlDel (epfd fd : FD) (ret : Int)
  | epollWaitCall (epfd : FD) (maxevents : Nat) (ret : Except Int (List PID))
  | closeCall (fd : FD) (ret : Int)

/-- Syscall environment: scripted results for each kind of syscall, plus a
log of the calls already made.  A poll script entry `.error e` stands for
`epoll_wait` returning the negative code `e`; `.ok toks` stands for it
returning the tokens `toks` (the `u64` data of the ready events). -/
structure Env where
  creates : List Int
  opens : List Int
  ctls : List Int
  polls : List (Except Int (List PID))
  closes : List Int
  log : List SysOp

/-- Association-list model of `FDPidsMap = HashMap<PID, FD>`. -/
abbrev PidMap := List (PID × FD)

/-- Mirrors `HashMap::get`. -/
def PidMap.get : PidMap → PID → Option FD
  | [], _ => none
  | (k, v) :: rest, p => if p = k then some v else PidMap.get rest p

/-- Mirrors `HashMap::remove` (on maps whose keys are unique, removing
every entry with the key equals removing the single entry). -/
def PidMap.remove (m : PidMap) (p : PID) : PidMap :=
  m.filter (fun e => e.1 != p)

/-- Mirrors `HashMap::insert` (overwrite an existing key, else append). -/
def PidMap.insert (m : PidMap) (p : PID) (v : FD) : PidMap :=
  if (PidMap.get m p).isSome then
    m.map (fun e => if e.1 = p then (p, v) else e)
  else m ++ [(p, v)]

/-- Mirrors `struct PidSet`. -/
structure PidSet where
  fd_pids : PidMap
  epoll_fd : Option FD

/-- Mirrors `PidSet::new`: collect `(pid, 0)` pairs into the map. -/
def PidSet.new (pids : List PID) : PidSet :=
  { fd_pids := pids.foldl (fun m p => PidMap.insert m p 0) [],
    epoll_fd := none }

/-- Mirrors `fn syserr`: a negative return code becomes an error carrying
that code. -/
def syserr (status_code : Int) : Except Int Int :=
  if status_code < 0 then .error status_code else .ok status_code

/-- Mirrors `fn syscallerr` (its `io::Error::last_os_error()` payload is
abstracted as the negative return value itself). -/
def syscallerr (status_code : Int) : Except Int Int :=
  if status_code < 0 then .error status_code else .ok status_code

/-- Mirrors `PidSet::register_pid`: `pidfd_open(pid, 0)` followed by
`epoll_ctl(epoll_fd, EPOLL_CTL_ADD, cfd, token)`. -/
def PidSet.register_pid (env : Env) (epoll_fd : FD) (pid : PID) (token : PID) :
    Option (Except PidSetError FD × Env) :=
  match env.opens with
  | [] => none
  | r :: rest =>
    let env1 : Env :=
      { env with
        opens := rest,
        log := env.log ++ [SysOp.pidfdOpen pid r] }
    match syscallerr r with
    | .error e => some (.error (.pidFdOpenSyscall pid e), env1)
    | .ok cfd =>
      match env1.ctls with
      | [] => none
      | c :: crest =>
        let env2 : Env :=
          { env1 with
            ctls := crest,
            log := env1.log ++ [SysOp.epollCtlAdd epoll_fd cfd token c] }
        match syserr c with
        | .error e => some (.error (.epollCtl e), env2)
        | .ok _ => some (.ok cfd, env2)

/-- Mirrors `PidSet::deregister_pid`: `epoll_ctl(epoll_fd, EPOLL_CTL_DEL, fd)`.
Note the source maps the failure to `PidSetError::EpollWait` (not
`EpollCtl`) and propagates it with `?`. -/
def PidSet.deregister_pid (env : Env) (epoll_fd : FD) (fd : FD) :
    Option (Except PidSetError Unit × Env) :=
  match env.ctls with
  | [] => none
  | c :: crest =>
    let env1 : Env :=
      { env with
        ctls := crest,
        log := env.log ++ [SysOp.epollCtlDel epoll_fd fd c] }
    match syserr c with
    | .error e => some (.error (.epollWait e), env1)
    | .ok _ => some (.ok (), env1)

/-- The loop body of `PidSet::init_epoll`:
`for (pid, fd) in &mut self.fd_pids { *fd = register_pid(epoll_fd, *pid, *pid)?; }`.
Each entry's value is overwritten with the freshly opened pidfd; on the
first failure the loop aborts, leaving the failing and later entries
untouched. -/
def PidSet.registerAll (epoll_fd : FD) :
    Env → PidMap → Option (Except PidSetError Unit × PidMap × Env)
  | env, [] => some (.ok (), [], env)
  | env, (pid, fd) :: rest =>
    match PidSet.register_pid env epoll_fd pid pid with
    | none => none
    | some (.error e, env1) => some (.error e, (pid, fd) :: rest, env1)
    | some (.ok cfd, env1) =>
      match PidSet.registerAll epoll_fd env1 rest with
      | none => none
      | some (r, rest1, env2) => some (r, (pid, cfd) :: rest1, env2)

/-- Mirrors `PidSet::init_epoll`: `epoll_create1(0)`, then register every
tracked PID with token = pid; `self.epoll_fd` is set only when every
registration succeeded. -/
def PidSet.init_epoll (env : Env) (s : PidSet) :
    Option (Except PidSetError FD × PidSet × Env) :=
  match env.creates with
  | [] => none
  | c :: crest =>
    let env1 : Env :=
      { env with
        creates := crest,
        log := env.log ++ [SysOp.epollCreate1 c] }
    match syserr c with
    | .error e => some (.error (.epollCreate e), s, env1)
    | .ok epfd =>
      match PidSet.registerAll epfd env1 s.fd_pids with
      | none => none
      | some (.error e, m1, env2) =>
        some (.error e, { s with fd_pids := m1 }, env2)
      | some (.ok _, m1, env2) =>
        some (.ok epfd, { fd_pids := m1, epoll_fd := some epfd }, env2)

/-- The `for event in events` loop of `PidSet::wait`: look the token up in
`fd_pids` (absent tokens abort with `PidNotFound`), `deregister_pid` the
stored fd (a failure aborts via `?` before the removal), then remove the
entry. -/
def PidSet.processBatch (epoll_fd : FD) :
    List PID → Env → PidSet → Option (Except PidSetError Unit × PidSet × Env)
  | [], env, s => some (.ok (), s, env)
  | tok :: rest, env, s =>
    match PidMap.get s.fd_pids tok with
    | none => some (.error (.pidNotFound tok), s, env)
    | some fd =>
      match PidSet.deregister_pid env epoll_fd fd with
      | none => none
      | some (.error e, env1) => some (.error e, s, env1)
      | some (.ok _, env1) =>
        PidSet.processBatch epoll_fd rest env1
          { s with fd_pids := PidMap.remove s.fd_pids tok }

/-- The `while total_events < n` loop of `PidSet::wait`, written by cases
on the remaining poll script (the case split on the script is only the
embedding's way of consuming it; all three clauses perform the same two
checks first).  Each iteration calls
`epoll_wait(epoll_fd, events, max_events, -1)`.  Per `epoll_wait(2)` the
call fails (returns `-1` with `errno = EINVAL`) when `maxevents` is not
greater than zero, without consuming the poll script; otherwise the next
scripted poll result is consumed, and at most `max_events` ready events
are returned by one call.  The count of returned events is added to
`total_events` (the source adds it before draining the batch; the sum is
only returned on the all-ok path, where the order of addition is
immaterial) and the whole batch is then processed. -/
def PidSet.waitLoop (epoll_fd : FD) (max_events n : Nat) :
    List (Except Int (List PID)) -> Env -> PidSet -> Nat ->
    Option (Except PidSetError Nat × PidSet × Env × List (Except Int (List PID)))
  | [], env, s, total =>
    if total < n then
      if max_events = 0 then
        some (.error (.epollWait (-1)), s,
          { env with log := env.log ++ [SysOp.epollWaitCall epoll_fd 0 (.error (-1))] },
          [])
      else none
    else some (.ok total, s, env, [])
  | .error e :: rest, env, s, total =>
    if total < n then
      if max_events = 0 then
        some (.error (.epollWait (-1)), s,
          { env with log := env.log ++ [SysOp.epollWaitCall epoll_fd 0 (.error (-1))] },
          .error e :: rest)
      else
        some (.error (.epollWait e), s,
          { env with log := env.log ++ [SysOp.epollWaitCall epoll_fd max_events (.error e)] },
          rest)
    else some (.ok total, s, env, .error e :: rest)
  | .ok toks :: rest, env, s, total =>
    if total < n then
      if max_events = 0 then
        some (.error (.epollWait (-1)), s,
          { env with log := env.log ++ [SysOp.epollWaitCall epoll_fd 0 (.error (-1))] },
          .ok toks :: rest)
      else
        match PidSet.processBatch epoll_fd (toks.take max_events)
            { env with
              log := env.log ++
                [SysOp.epollWaitCall epoll_fd max_events (.ok (toks.take max_events))] }
            s with
        | none => none
        | some (.error e, s1, env2) => some (.error e, s1, env2, rest)
        | some (.ok _, s1, env2) =>
          PidSet.waitLoop epoll_fd max_events n rest env2 s1
            (total + (toks.take max_events).length)
    else some (.ok total, s, env, .ok toks :: rest)

/-- Mirrors `PidSet::wait`.  `max_events` is the map's length at entry.
The line `self.epoll_fd.unwrap_or(self.init_epoll()?)` first reads the
(Copy) receiver `self.epoll_fd`, then evaluates the argument — `unwrap_or`
takes its argument eagerly, so `init_epoll` runs on **every** call — and
finally unwraps the previously read value, falling back to the fresh one
only when it was `None`. -/
def PidSet.wait (env : Env) (s : PidSet) (n : Nat) :
    Option (Except PidSetError Nat × PidSet × Env) :=
  let max_events := s.fd_pids.length
  let old := s.epoll_fd
  match PidSet.init_epoll env s with
  | none => none
  | some (.error e, s1, env1) => some (.error e, s1, env1)
  | some (.ok newfd, s1, env1) =>
    let epoll_fd := old.getD newfd
    match PidSet.waitLoop epoll_fd max_events n env1.polls env1 s1 0 with
    | none => none
    | some (r, s2, env2, rest) => some (r, s2, { env2 with polls := rest })

/-- Mirrors `PidSet::wait_all`: `self.wait(self.fd_pids.len())?; Ok(())`. -/
def PidSet.wait_all (env : Env) (s : PidSet) :
    Option (Except PidSetError Unit × PidSet × Env) :=
  match PidSet.wait env s s.fd_pids.length with
  | none => none
  | some (.error e, s1, env1) => some (.error e, s1, env1)
  | some (.ok _, s1, env1) => some (.ok (), s1, env1)

/-- Mirrors `PidSet::wait_any`: `self.wait(1)?; Ok(())`. -/
def PidSet.wait_any (env : Env) (s : PidSet) :
    Option (Except PidSetError Unit × PidSet × Env) :=
  match PidSet.wait env s 1 with
  | none => none
  | some (.error e, s1, env1) => some (.error e, s1, env1)
  | some (.ok _, s1, env1) => some (.ok (), s1, env1)

/-- Mirrors `PidSet::close`: the same eager
`self.epoll_fd.unwrap_or(self.init_epoll()?)` pattern as `wait` (so a
`close` on a never-initialized set still runs the full initialization),
then `libc::close` on the unwrapped fd. -/
def PidSet.close (env : Env) (s : PidSet) :
    Option (Except PidSetError Unit × Env) :=
  let old := s.epoll_fd
  match PidSet.init_epoll env s with
  | none => none
  | some (.error e, _, env1) => some (.error e, env1)
  | some (.ok newfd, _, env1) =>
    let epoll_fd := old.getD newfd
    match env1.closes with
    | [] => none
    | c :: crest =>
      let env2 : Env :=
        { env1 with
          closes := crest,
          log := env1.log ++ [SysOp.closeCall epoll_fd c] }
      match syserr c with
      | .error e => some (.error (.epollClose e), env2)
      | .ok _ => some (.ok (), env2)

/-! ### Lemmas about the map model -/

theorem PidMap.get_remove (m : PidMap) (p q : PID) :
    PidMap.get (PidMap.remove m p) q = if q = p then none else PidMap.get m q := by
  induction m with
  | nil =>
    simp only [PidMap.remove, List.filter_nil, PidMap.get]
    split <;> rfl
  | cons e rest ih =>
    obtain ⟨k, v⟩ := e
    simp only [PidMap.remove, List.filter_cons] at *
    by_cases hk : k = p
    · subst hk
      simp only [bne_self_eq_false, Bool.false_eq_true, if_false, ih]
      by_cases hq : q = k <;> simp [PidMap.get, hq]
    · have hb : ((k, v).1 != p) = true := by simp [hk]
      simp only [hb, if_true]
      by_cases hq : q = k
      · subst hq
        simp [PidMap.get, hk]
      · simp [PidMap.get, hq, ih]

theorem PidMap.get_isSome_of_keys_eq :
    ∀ (m1 m2 : PidMap), m1.map Prod.fst = m2.map Prod.fst →
      ∀ q, (PidMap.get m1 q).isSome = (PidMap.get m2 q).isSome := by
  intro m1
  induction m1 with
  | nil =>
    intro m2 h q
    cases m2 with
    | nil => rfl
    | cons e r => simp at h
  | cons e rest ih =>
    intro m2 h q
    cases m2 with
    | nil => simp at h
    | cons e2 r2 =>
      obtain ⟨k, v⟩ := e
      obtain ⟨k2, v2⟩ := e2
      simp only [List.map_cons, List.cons.injEq] at h
      obtain ⟨hk, hr⟩ := h
      subst hk
      by_cases hq : q = k <;> simp [PidMap.get, hq, ih r2 hr]

/-! ### Shape lemmas for the registry primitives -/

theorem PidSet.deregister_pid_error (env : Env) (epfd fd : FD) (e : PidSetError)
    (env' : Env)
    (h : PidSet.deregister_pid env epfd fd = some (.error e, env')) :
    ∃ c, c < 0 ∧ e = .epollWait c := by
  unfold PidSet.deregister_pid at h
  cases hc : env.ctls with
  | nil => rw [hc] at h; exact absurd h (by simp)
  | cons c crest =>
    rw [hc] at h
    by_cases h0 : c < 0
    · simp only [syserr, if_pos h0, Option.some.injEq, Prod.mk.injEq] at h
      exact ⟨c, h0, by
        have := h.1
        exact (Except.error.injEq _ _).mp this.symm ▸ rfl⟩
    · simp [syserr, if_neg h0] at h

/-! ### Characterization of the drain loop -/

theorem PidSet.processBatch_spec (epfd : FD) :
    ∀ (toks : List PID) (env : Env) (s : PidSet) (r : Except PidSetError Unit)
      (s' : PidSet) (env' : Env),
      PidSet.processBatch epfd toks env s = some (r, s', env') →
      ∃ drained : List PID,
        drained.Nodup ∧
        (∀ p ∈ drained, (PidMap.get s.fd_pids p).isSome) ∧
        (∀ q, PidMap.get s'.fd_pids q =
          if q ∈ drained then none else PidMap.get s.fd_pids q) ∧
        s'.epoll_fd = s.epoll_fd ∧
        (∀ u, r = .ok u → drained = toks) ∧
        (∀ t, r = .error (.pidNotFound t) → PidMap.get s'.fd_pids t = none) := by
  intro toks
  induction toks with
  | nil =>
    intro env s r s' env' h
    simp only [PidSet.processBatch, Option.some.injEq, Prod.mk.injEq] at h
    obtain ⟨hr, hs, henv⟩ := h
    subst hs
    refine ⟨[], by simp, by simp, by simp, rfl, fun u _ => rfl, fun t ht => ?_⟩
    rw [← hr] at ht
    exact absurd ht (by simp)
  | cons tok rest ih =>
    intro env s r s' env' h
    rw [PidSet.processBatch] at h
    cases hg : PidMap.get s.fd_pids tok with
    | none =>
      rw [hg] at h
      simp only [Option.some.injEq, Prod.mk.injEq] at h
      obtain ⟨hr, hs, henv⟩ := h
      subst hs
      refine ⟨[], by simp, by simp, by simp, rfl, fun u hu => ?_, fun t ht => ?_⟩
      · rw [← hr] at hu; exact absurd hu (by simp)
      · rw [← hr] at ht
        have : tok = t := by
          have := (Except.error.injEq _ _).mp ht
          cases this
          rfl
        rw [← this]
        exact hg
    | some fd =>
      simp only [hg] at h
      cases hd : PidSet.deregister_pid env epfd fd with
      | none => simp only [hd] at h; exact absurd h (by simp)
      | some res =>
        obtain ⟨rd, env1⟩ := res
        cases rd with
        | error e =>
          simp only [hd, Option.some.injEq, Prod.mk.injEq] at h
          obtain ⟨hr, hs, henv⟩ := h
          subst hs
          obtain ⟨c, hc, he⟩ := PidSet.deregister_pid_error env epfd fd e env1 hd
          refine ⟨[], by simp, by simp, by simp, rfl, fun u hu => ?_, fun t ht => ?_⟩
          · rw [← hr] at hu; exact absurd hu (by simp)
          · rw [← hr, he] at ht
            exact absurd ((Except.error.injEq _ _).mp ht) (by simp)
        | ok u =>
          simp only [hd] at h
          have h2 := ih env1 { s with fd_pids := PidMap.remove s.fd_pids tok } r s' env' h
          obtain ⟨dr, hnodup, hmem, hchar, hep, hok, hnf⟩ := h2
          refine ⟨tok :: dr, ?_, ?_, ?_, hep, ?_, ?_⟩
          · refine List.nodup_cons.mpr ⟨?_, hnodup⟩
            intro habs
            have := hmem tok habs
            simp only [PidMap.get_remove, if_pos rfl] at this
            exact absurd this (by simp)
          · intro p hp
            rcases List.mem_cons.mp hp with hp | hp
            · subst hp; rw [hg]; rfl
            · have := hmem p hp
              simp only [PidMap.get_remove] at this
              by_cases hpt : p = tok
              · subst hpt; simp at this
              · rwa [if_neg hpt] at this
          · intro q
            have := hchar q
            simp only [PidMap.get_remove] at this
            by_cases hqt : q = tok
            · subst hqt
              simp only [List.mem_cons, true_or, if_true]
              rw [this]
              by_cases hq : q ∈ dr
              · simp [hq]
              · simp [hq]
            · simp only [List.mem_cons, hqt, false_or]
              rw [this, if_neg hqt]
          · intro u hu
            rw [hok u hu]
          · exact hnf

/-! ### Branch equations for the wait loop -/

theorem PidSet.waitLoop_stop (epfd : FD) (me n : Nat)
    (polls : List (Except Int (List PID))) (env : Env) (s : PidSet) (total : Nat)
    (h : ¬ total < n) :
    PidSet.waitLoop epfd me n polls env s total = some (.ok total, s, env, polls) := by
  match polls with
  | [] => rw [PidSet.waitLoop, if_neg h]
  | .error e :: rest => rw [PidSet.waitLoop, if_neg h]
  | .ok toks :: rest => rw [PidSet.waitLoop, if_neg h]

theorem PidSet.waitLoop_einval (epfd : FD) (n : Nat)
    (polls : List (Except Int (List PID))) (env : Env) (s : PidSet) (total : Nat)
    (h1 : total < n) :
    PidSet.waitLoop epfd 0 n polls env s total =
      some (.error (.epollWait (-1)), s,
        { env with log := env.log ++ [SysOp.epollWaitCall epfd 0 (.error (-1))] },
        polls) := by
  match polls with
  | [] => rw [PidSet.waitLoop, if_pos h1, if_pos rfl]
  | .error e :: rest => rw [PidSet.waitLoop, if_pos h1, if_pos rfl]
  | .ok toks :: rest => rw [PidSet.waitLoop, if_pos h1, if_pos rfl]

theorem PidSet.waitLoop_poll_error (epfd : FD) (me n : Nat) (e : Int)
    (rest : List (Except Int (List PID))) (env : Env) (s : PidSet) (total : Nat)
    (h1 : total < n) (h2 : ¬ me = 0) :
    PidSet.waitLoop epfd me n (.error e :: rest) env s total =
      some (.error (.epollWait e), s,
        { env with log := env.log ++ [SysOp.epollWaitCall epfd me (.error e)] },
        rest) := by
  rw [PidSet.waitLoop, if_pos h1, if_neg h2]

theorem PidSet.waitLoop_poll_ok (epfd : FD) (me n : Nat) (toks : List PID)
    (rest : List (Except Int (List PID))) (env : Env) (s : PidSet) (total : Nat)
    (h1 : total < n) (h2 : ¬ me = 0) :
    PidSet.waitLoop epfd me n (.ok toks :: rest) env s total =
      match PidSet.processBatch epfd (toks.take me)
          { env with log := env.log ++ [SysOp.epollWaitCall epfd me (.ok (toks.take me))] }
          s with
      | none => none
      | some (.error e, s1, env2) => some (.error e, s1, env2, rest)
      | some (.ok _, s1, env2) =>
        PidSet.waitLoop epfd me n rest env2 s1 (total + (toks.take me).length) := by
  rw [PidSet.waitLoop, if_pos h1, if_neg h2]

theorem PidSet.waitLoop_spec (epfd : FD) (max_events n : Nat) :
    ∀ (polls : List (Except Int (List PID))) (env : Env) (s : PidSet) (total : Nat)
      (r : Except PidSetError Nat) (s' : PidSet) (env' : Env)
      (rest' : List (Except Int (List PID))),
      PidSet.waitLoop epfd max_events n polls env s total = some (r, s', env', rest') →
      ∃ drained : List PID,
        drained.Nodup ∧
        (∀ p ∈ drained, (PidMap.get s.fd_pids p).isSome) ∧
        (∀ q, PidMap.get s'.fd_pids q =
          if q ∈ drained then none else PidMap.get s.fd_pids q) ∧
        s'.epoll_fd = s.epoll_fd ∧
        (∀ t, r = .ok t → t = total + drained.length ∧ n ≤ t) ∧
        (∀ tok, r = .error (.pidNotFound tok) → PidMap.get s'.fd_pids tok = none) := by
  intro polls
  induction polls with
  | nil =>
    intro env s total r s' env' rest' h
    by_cases htot : total < n
    · by_cases hme : max_events = 0
      · subst hme
        rw [PidSet.waitLoop_einval epfd n [] env s total htot] at h
        simp only [Option.some.injEq, Prod.mk.injEq] at h
        obtain ⟨hr, hs, -, -⟩ := h
        subst hs
        refine ⟨[], by simp, by simp, by simp, rfl, fun t ht => ?_, fun tok htok => ?_⟩
        · rw [← hr] at ht; exact absurd ht (by simp)
        · rw [← hr] at htok
          exact absurd ((Except.error.injEq _ _).mp htok) (by simp)
      · rw [PidSet.waitLoop, if_pos htot, if_neg hme] at h
        exact absurd h (by simp)
    · rw [PidSet.waitLoop_stop epfd max_events n [] env s total htot] at h
      simp only [Option.some.injEq, Prod.mk.injEq] at h
      obtain ⟨hr, hs, -, -⟩ := h
      subst hs
      refine ⟨[], by simp, by simp, by simp, rfl, fun t ht => ?_, fun tok htok => ?_⟩
      · rw [← hr] at ht
        have htt : total = t := (Except.ok.injEq _ _).mp ht
        have hlen : ([] : List PID).length = 0 := rfl
        exact ⟨by omega, by omega⟩
      · rw [← hr] at htok; exact absurd htok (by simp)
  | cons p rest ihp =>
    intro env s total r s' env' rest' h
    by_cases htot : total < n
    · by_cases hme : max_events = 0
      · subst hme
        rw [PidSet.waitLoop_einval epfd n (p :: rest) env s total htot] at h
        simp only [Option.some.injEq, Prod.mk.injEq] at h
        obtain ⟨hr, hs, -, -⟩ := h
        subst hs
        refine ⟨[], by simp, by simp, by simp, rfl, fun t ht => ?_, fun tok htok => ?_⟩
        · rw [← hr] at ht; exact absurd ht (by simp)
        · rw [← hr] at htok
          exact absurd ((Except.error.injEq _ _).mp htok) (by simp)
      · cases p with
        | error e =>
          rw [PidSet.waitLoop_poll_error epfd max_events n e rest env s total htot hme] at h
          simp only [Option.some.injEq, Prod.mk.injEq] at h
          obtain ⟨hr, hs, -, -⟩ := h
          subst hs
          refine ⟨[], by simp, by simp, by simp, rfl, fun t ht => ?_, fun tok htok => ?_⟩
          · rw [← hr] at ht; exact absurd ht (by simp)
          · rw [← hr] at htok
            exact absurd ((Except.error.injEq _ _).mp htok) (by simp)
        | ok toks =>
          rw [PidSet.waitLoop_poll_ok epfd max_events n toks rest env s total htot hme] at h
          cases hb : PidSet.processBatch epfd (toks.take max_events)
              { env with
                log := env.log ++ [SysOp.epollWaitCall epfd max_events (.ok (toks.take max_events))] }
              s with
          | none => simp only [hb] at h; exact absurd h (by simp)
          | some resb =>
            obtain ⟨rb, s1, env2⟩ := resb
            cases rb with
            | error e =>
              simp only [hb, Option.some.injEq, Prod.mk.injEq] at h
              obtain ⟨hr, hs, -, -⟩ := h
              subst hs
              obtain ⟨dr, hnodup, hmem, hchar, hep, hok, hnf⟩ :=
                PidSet.processBatch_spec epfd _ _ _ _ _ _ hb
              refine ⟨dr, hnodup, hmem, hchar, hep, fun t ht => ?_, fun tok htok => ?_⟩
              · rw [← hr] at ht; exact absurd ht (by simp)
              · rw [← hr] at htok
                have he : e = PidSetError.pidNotFound tok := (Except.error.injEq _ _).mp htok
                exact hnf tok (by rw [he])
            | ok u =>
              simp only [hb] at h
              obtain ⟨dr1, h1nodup, h1mem, h1char, h1ep, h1ok, h1nf⟩ :=
                PidSet.processBatch_spec epfd _ _ _ _ _ _ hb
              obtain ⟨dr2, h2nodup, h2mem, h2char, h2ep, h2ok, h2nf⟩ :=
                ihp _ _ _ _ _ _ _ h
              have hdr1 : dr1 = toks.take max_events := h1ok u rfl
              have htrans : ∀ q, q ∈ dr2 → (PidMap.get s.fd_pids q).isSome := by
                intro q hq
                have h1 := h2mem q hq
                rw [h1char q] at h1
                by_cases hq1 : q ∈ dr1
                · rw [if_pos hq1] at h1; exact absurd h1 (by simp)
                · rwa [if_neg hq1] at h1
              have hdisj : ∀ q, q ∈ dr1 → q ∉ dr2 := by
                intro q hq1 hq2
                have h1 := h2mem q hq2
                rw [h1char q, if_pos hq1] at h1
                exact absurd h1 (by simp)
              refine ⟨dr1 ++ dr2, ?_, ?_, ?_, ?_, fun t ht => ?_, fun tok htok => ?_⟩
              · exact List.nodup_append.mpr ⟨h1nodup, h2nodup, fun q hq1 hq2 => hdisj q hq1 hq2⟩
              · intro q hq
                rcases List.mem_append.mp hq with hq | hq
                · exact h1mem q hq
                · exact htrans q hq
              · intro q
                rw [h2char q, h1char q]
                by_cases hq2 : q ∈ dr2
                · simp [hq2]
                · by_cases hq1 : q ∈ dr1 <;> simp [hq1, hq2]
              · rw [h2ep, h1ep]
              · obtain ⟨ht1, ht2⟩ := h2ok t ht
                refine ⟨?_, ht2⟩
                rw [List.length_append, ← hdr1] at *
                omega
              · exact h2nf tok htok
    · rw [PidSet.waitLoop_stop epfd max_events n (p :: rest) env s total htot] at h
      simp only [Option.some.injEq, Prod.mk.injEq] at h
      obtain ⟨hr, hs, -, -⟩ := h
      subst hs
      refine ⟨[], by simp, by simp, by simp, rfl, fun t ht => ?_, fun tok htok => ?_⟩
      · rw [← hr] at ht
        have htt : total = t := (Except.ok.injEq _ _).mp ht
        have hlen : ([] : List PID).length = 0 := rfl
        exact ⟨by omega, by omega⟩
      · rw [← hr] at htok; exact absurd htok (by simp)

/-! ### Shape lemmas for registration and initialization -/

theorem PidSet.register_pid_ok (env : Env) (epfd : FD) (pid tok : PID) (cfd : FD)
    (env' : Env) (h : PidSet.register_pid env epfd pid tok = some (.ok cfd, env')) :
    0 ≤ cfd ∧ ∃ c, 0 ≤ c ∧
      env'.log = env.log ++ [SysOp.pidfdOpen pid cfd, SysOp.epollCtlAdd epfd cfd tok c] := by
  unfold PidSet.register_pid at h
  cases ho : env.opens with
  | nil => rw [ho] at h; exact absurd h (by simp)
  | cons rr orest =>
    by_cases hr : rr < 0
    · simp only [ho, syscallerr, if_pos hr] at h
      exact absurd h (by simp)
    · simp only [ho, syscallerr, if_neg hr] at h
      cases hc : env.ctls with
      | nil => simp only [hc] at h; exact absurd h (by simp)
      | cons c crest =>
        by_cases hcc : c < 0
        · simp only [hc, syserr, if_pos hcc] at h
          exact absurd h (by simp)
        · simp only [hc, syserr, if_neg hcc, Option.some.injEq, Prod.mk.injEq] at h
          obtain ⟨hfd, henv⟩ := h
          have hrr : rr = cfd := (Except.ok.injEq _ _).mp hfd
          subst hrr
          refine ⟨not_lt.mp hr, c, not_lt.mp hcc, ?_⟩
          rw [← henv]
          simp [List.append_assoc]

theorem PidSet.register_pid_error (env : Env) (epfd : FD) (pid tok : PID)
    (e : PidSetError) (env' : Env)
    (h : PidSet.register_pid env epfd pid tok = some (.error e, env')) :
    (∃ rr, rr < 0 ∧ e = .pidFdOpenSyscall pid rr ∧
      env'.log = env.log ++ [SysOp.pidfdOpen pid rr]) ∨
    (∃ cfd cc, 0 ≤ cfd ∧ cc < 0 ∧ e = .epollCtl cc ∧
      env'.log = env.log ++ [SysOp.pidfdOpen pid cfd, SysOp.epollCtlAdd epfd cfd tok cc]) := by
  unfold PidSet.register_pid at h
  cases ho : env.opens with
  | nil => rw [ho] at h; exact absurd h (by simp)
  | cons rr orest =>
    by_cases hr : rr < 0
    · simp only [ho, syscallerr, if_pos hr, Option.some.injEq, Prod.mk.injEq] at h
      obtain ⟨he, henv⟩ := h
      have he2 : PidSetError.pidFdOpenSyscall pid rr = e := (Except.error.injEq _ _).mp he
      exact Or.inl ⟨rr, hr, he2.symm, by rw [← henv]⟩
    · simp only [ho, syscallerr, if_neg hr] at h
      cases hc : env.ctls with
      | nil => simp only [hc] at h; exact absurd h (by simp)
      | cons c crest =>
        by_cases hcc : c < 0
        · simp only [hc, syserr, if_pos hcc, Option.some.injEq, Prod.mk.injEq] at h
          obtain ⟨he, henv⟩ := h
          have he2 : PidSetError.epollCtl c = e := (Except.error.injEq _ _).mp he
          refine Or.inr ⟨rr, c, not_lt.mp hr, hcc, he2.symm, ?_⟩
          rw [← henv]
          simp [List.append_assoc]
        · simp only [hc, syserr, if_neg hcc] at h
          exact absurd h (by simp)

theorem PidSet.registerAll_keys (epfd : FD) :
    ∀ (m : PidMap) (env : Env) (r : Except PidSetError Unit) (m' : PidMap) (env' : Env),
      PidSet.registerAll epfd env m = some (r, m', env') →
      m'.map Prod.fst = m.map Prod.fst := by
  intro m
  induction m with
  | nil =>
    intro env r m' env' h
    simp only [PidSet.registerAll, Option.some.injEq, Prod.mk.injEq] at h
    obtain ⟨-, hm, -⟩ := h
    rw [← hm]
  | cons entry rest ih =>
    obtain ⟨pid, fd0⟩ := entry
    intro env r m' env' h
    rw [PidSet.registerAll] at h
    cases hreg : PidSet.register_pid env epfd pid pid with
    | none => simp only [hreg] at h; exact absurd h (by simp)
    | some res =>
      obtain ⟨rr, env1⟩ := res
      cases rr with
      | error e2 =>
        simp only [hreg, Option.some.injEq, Prod.mk.injEq] at h
        obtain ⟨-, hm, -⟩ := h
        rw [← hm]
      | ok cfd =>
        simp only [hreg] at h
        cases hra : PidSet.registerAll epfd env1 rest with
        | none => simp only [hra] at h; exact absurd h (by simp)
        | some res2 =>
          obtain ⟨r2, rest1, env2⟩ := res2
          simp only [hra, Option.some.injEq, Prod.mk.injEq] at h
          obtain ⟨-, hm, -⟩ := h
          rw [← hm]
          simp only [List.map_cons]
          rw [ih env1 r2 rest1 env2 hra]

theorem PidSet.registerAll_log (epfd : FD) :
    ∀ (m : PidMap) (env : Env) (r : Except PidSetError Unit) (m' : PidMap) (env' : Env),
      PidSet.registerAll epfd env m = some (r, m', env') →
      ∃ L, env'.log = env.log ++ L ∧
        ∀ op ∈ L, (∃ p v, op = SysOp.pidfdOpen p v) ∨
          (∃ f t v, op = SysOp.epollCtlAdd epfd f t v) := by
  intro m
  induction m with
  | nil =>
    intro env r m' env' h
    simp only [PidSet.registerAll, Option.some.injEq, Prod.mk.injEq] at h
    obtain ⟨-, -, henv⟩ := h
    exact ⟨[], by rw [← henv]; simp, by simp⟩
  | cons entry rest ih =>
    obtain ⟨pid, fd0⟩ := entry
    intro env r m' env' h
    rw [PidSet.registerAll] at h
    cases hreg : PidSet.register_pid env epfd pid pid with
    | none => simp only [hreg] at h; exact absurd h (by simp)
    | some res =>
      obtain ⟨rr, env1⟩ := res
      cases rr with
      | error e2 =>
        simp only [hreg, Option.some.injEq, Prod.mk.injEq] at h
        obtain ⟨-, -, henv⟩ := h
        rcases PidSet.register_pid_error env epfd pid pid e2 env1 hreg with
          ⟨v, hv, -, hlog⟩ | ⟨cfd, cc, -, -, -, hlog⟩
        · exact ⟨[SysOp.pidfdOpen pid v], by rw [← henv, hlog],
            by intro op hop; simp at hop; exact Or.inl ⟨pid, v, hop⟩⟩
        · refine ⟨[SysOp.pidfdOpen pid cfd, SysOp.epollCtlAdd epfd cfd pid cc],
            by rw [← henv, hlog], ?_⟩
          intro op hop
          rcases List.mem_cons.mp hop with hop | hop
          · exact Or.inl ⟨pid, cfd, hop⟩
          · simp at hop
            exact Or.inr ⟨cfd, pid, cc, hop⟩
      | ok cfd =>
        simp only [hreg] at h
        cases hra : PidSet.registerAll epfd env1 rest with
        | none => simp only [hra] at h; exact absurd h (by simp)
        | some res2 =>
          obtain ⟨r2, rest1, env2⟩ := res2
          simp only [hra, Option.some.injEq, Prod.mk.injEq] at h
          obtain ⟨-, -, henv⟩ := h
          obtain ⟨-, c, -, hlog1⟩ := PidSet.register_pid_ok env epfd pid pid cfd env1 hreg
          obtain ⟨L2, hlog2, hshape⟩ := ih env1 r2 rest1 env2 hra
          refine ⟨[SysOp.pidfdOpen pid cfd, SysOp.epollCtlAdd epfd cfd pid c] ++ L2, ?_, ?_⟩
          · rw [← henv, hlog2, hlog1, List.append_assoc]
          · intro op hop
            rcases List.mem_append.mp hop with hop | hop
            · rcases List.mem_cons.mp hop with hop | hop
              · exact Or.inl ⟨pid, cfd, hop⟩
              · simp at hop
                exact Or.inr ⟨cfd, pid, c, hop⟩
            · exact hshape op hop

theorem PidSet.registerAll_ok_log (epfd : FD) :
    ∀ (m : PidMap) (env : Env) (u : Unit) (m' : PidMap) (env' : Env),
      PidSet.registerAll epfd env m = some (.ok u, m', env') →
      ∀ p, p ∈ m.map Prod.fst →
        ∃ fd v, 0 ≤ fd ∧ 0 ≤ v ∧ SysOp.pidfdOpen p fd ∈ env'.log ∧
          SysOp.epollCtlAdd epfd fd p v ∈ env'.log := by
  intro m
  induction m with
  | nil =>
    intro env u m' env' h p hp
    simp at hp
  | cons entry rest ih =>
    obtain ⟨pid, fd0⟩ := entry
    intro env u m' env' h p hp
    rw [PidSet.registerAll] at h
    cases hreg : PidSet.register_pid env epfd pid pid with
    | none => simp only [hreg] at h; exact absurd h (by simp)
    | some res =>
      obtain ⟨rr, env1⟩ := res
      cases rr with
      | error e2 =>
        simp only [hreg, Option.some.injEq, Prod.mk.injEq] at h
        obtain ⟨hre, -, -⟩ := h
        exact absurd hre (by simp)
      | ok cfd =>
        simp only [hreg] at h
        cases hra : PidSet.registerAll epfd env1 rest with
        | none => simp only [hra] at h; exact absurd h (by simp)
        | some res2 =>
          obtain ⟨r2, rest1, env2⟩ := res2
          simp only [hra, Option.some.injEq, Prod.mk.injEq] at h
          obtain ⟨hr2, -, henv⟩ := h
          obtain ⟨hcfd, c, hc, hlog1⟩ := PidSet.register_pid_ok env epfd pid pid cfd env1 hreg
          obtain ⟨L2, hlog2, -⟩ := PidSet.registerAll_log epfd rest env1 r2 rest1 env2 hra
          have hp' : p = pid ∨ p ∈ rest.map Prod.fst := by simpa using hp
          rcases hp' with hp1 | hp1
          · subst hp1
            refine ⟨cfd, c, hcfd, hc, ?_, ?_⟩
            · rw [← henv, hlog2, hlog1]
              refine List.mem_append_left _ ?_
              simp
            · rw [← henv, hlog2, hlog1]
              refine List.mem_append_left _ ?_
              simp
          · have hr2' : r2 = .ok u := by rw [hr2]
            obtain ⟨fd2, v2, hfd2, hv2, hm1, hm2⟩ :=
              ih env1 u rest1 env2 (by rw [← hr2']; exact hra) p hp1
            rw [← henv]
            exact ⟨fd2, v2, hfd2, hv2, hm1, hm2⟩

theorem PidSet.registerAll_error_last (epfd : FD) :
    ∀ (m : PidMap) (env : Env) (e : PidSetError) (m' : PidMap) (env' : Env),
      PidSet.registerAll epfd env m = some (.error e, m', env') →
      (∃ p v, v < 0 ∧ e = .pidFdOpenSyscall p v ∧ p ∈ m.map Prod.fst ∧
        env'.log.getLast? = some (SysOp.pidfdOpen p v)) ∨
      (∃ v f t, v < 0 ∧ e = .epollCtl v ∧
        env'.log.getLast? = some (SysOp.epollCtlAdd epfd f t v)) := by
  intro m
  induction m with
  | nil =>
    intro env e m' env' h
    simp only [PidSet.registerAll, Option.some.injEq, Prod.mk.injEq] at h
    obtain ⟨hre, -, -⟩ := h
    exact absurd hre (by simp)
  | cons entry rest ih =>
    obtain ⟨pid, fd0⟩ := entry
    intro env e m' env' h
    rw [PidSet.registerAll] at h
    cases hreg : PidSet.register_pid env epfd pid pid with
    | none => simp only [hreg] at h; exact absurd h (by simp)
    | some res =>
      obtain ⟨rr, env1⟩ := res
      cases rr with
      | error e2 =>
        simp only [hreg, Option.some.injEq, Prod.mk.injEq] at h
        obtain ⟨hre, -, henv⟩ := h
        have he2 : e2 = e := (Except.error.injEq _ _).mp hre
        subst he2
        rcases PidSet.register_pid_error env epfd pid pid e2 env1 hreg with
          ⟨v, hv, hev, hlog⟩ | ⟨cfd, cc, -, hcc, hev, hlog⟩
        · refine Or.inl ⟨pid, v, hv, hev, by simp, ?_⟩
          rw [← henv, hlog]
          exact List.getLast?_concat _
        · refine Or.inr ⟨cc, cfd, pid, hcc, hev, ?_⟩
          rw [← henv, hlog]
          have hsplit : env.log ++ [SysOp.pidfdOpen pid cfd, SysOp.epollCtlAdd epfd cfd pid cc]
              = (env.log ++ [SysOp.pidfdOpen pid cfd]) ++ [SysOp.epollCtlAdd epfd cfd pid cc] := by
            simp
          rw [hsplit]
          exact List.getLast?_concat _
      | ok cfd =>
        simp only [hreg] at h
        cases hra : PidSet.registerAll epfd env1 rest with
        | none => simp only [hra] at h; exact absurd h (by simp)
        | some res2 =>
          obtain ⟨r2, rest1, env2⟩ := res2
          simp only [hra, Option.some.injEq, Prod.mk.injEq] at h
          obtain ⟨hr2, -, henv⟩ := h
          have hr2' : r2 = .error e := by rw [hr2]
          rcases ih env1 e rest1 env2 (by rw [← hr2']; exact hra) with
            ⟨p, v, hv, hev, hp, hlast⟩ | ⟨v, f, t, hv, hev, hlast⟩
          · refine Or.inl ⟨p, v, hv, hev, by simp; right; simpa using hp, ?_⟩
            rw [← henv]; exact hlast
          · refine Or.inr ⟨v, f, t, hv, hev, ?_⟩
            rw [← henv]; exact hlast

theorem PidSet.init_epoll_create_fail (env : Env) (s : PidSet) (c : Int)
    (crest : List Int) (hc : env.creates = c :: crest) (hneg : c < 0) :
    PidSet.init_epoll env s = some (.error (.epollCreate c), s,
      { env with creates := crest, log := env.log ++ [SysOp.epollCreate1 c] }) := by
  unfold PidSet.init_epoll
  rw [hc]
  simp only [syserr, if_pos hneg]

theorem PidSet.init_epoll_ok (env : Env) (s : PidSet) (epfd : FD) (s' : PidSet)
    (env' : Env) (h : PidSet.init_epoll env s = some (.ok epfd, s', env')) :
    s'.epoll_fd = some epfd ∧
    s'.fd_pids.map Prod.fst = s.fd_pids.map Prod.fst ∧
    (∃ crest, env.creates = epfd :: crest ∧ 0 ≤ epfd) ∧
    (∃ L, env'.log = env.log ++ SysOp.epollCreate1 epfd :: L ∧
      ∀ op ∈ L, (∃ p v, op = SysOp.pidfdOpen p v) ∨
        (∃ f t v, op = SysOp.epollCtlAdd epfd f t v)) ∧
    (∀ p, p ∈ s.fd_pids.map Prod.fst →
      ∃ fd v, 0 ≤ fd ∧ 0 ≤ v ∧ SysOp.pidfdOpen p fd ∈ env'.log ∧
        SysOp.epollCtlAdd epfd fd p v ∈ env'.log) := by
  unfold PidSet.init_epoll at h
  cases hc : env.creates with
  | nil => rw [hc] at h; exact absurd h (by simp)
  | cons c crest =>
    by_cases hneg : c < 0
    · simp only [hc, syserr, if_pos hneg, Option.some.injEq, Prod.mk.injEq] at h
      obtain ⟨hre, -, -⟩ := h
      exact absurd hre (by simp)
    · simp only [hc, syserr, if_neg hneg] at h
      cases hra : PidSet.registerAll c
          { env with creates := crest, log := env.log ++ [SysOp.epollCreate1 c] }
          s.fd_pids with
      | none => simp only [hra] at h; exact absurd h (by simp)
      | some res =>
        obtain ⟨r2, m1, env2⟩ := res
        cases r2 with
        | error e2 =>
          simp only [hra, Option.some.injEq, Prod.mk.injEq] at h
          obtain ⟨hre, -, -⟩ := h
          exact absurd hre (by simp)
        | ok u =>
          simp only [hra, Option.some.injEq, Prod.mk.injEq] at h
          obtain ⟨hre, hs, henv⟩ := h
          have hce : c = epfd := (Except.ok.injEq _ _).mp hre
          subst hce
          subst henv
          refine ⟨by rw [← hs], ?_, ⟨crest, rfl, not_lt.mp hneg⟩, ?_, ?_⟩
          · rw [← hs]
            exact PidSet.registerAll_keys c _ _ _ _ _ hra
          · obtain ⟨L, hlog, hshape⟩ := PidSet.registerAll_log c _ _ _ _ _ hra
            refine ⟨L, ?_, hshape⟩
            rw [hlog]
            simp
          · intro p hp
            exact PidSet.registerAll_ok_log c _ _ _ _ _ hra p hp

theorem PidSet.init_epoll_error (env : Env) (s : PidSet) (e : PidSetError)
    (s' : PidSet) (env' : Env)
    (h : PidSet.init_epoll env s = some (.error e, s', env')) :
    s'.epoll_fd = s.epoll_fd ∧
    s'.fd_pids.map Prod.fst = s.fd_pids.map Prod.fst ∧
    ((∃ c, c < 0 ∧ e = .epollCreate c) ∨
     (∃ p v, v < 0 ∧ e = .pidFdOpenSyscall p v ∧ p ∈ s.fd_pids.map Prod.fst ∧
       env'.log.getLast? = some (SysOp.pidfdOpen p v)) ∨
     (∃ epfd2 v f t, v < 0 ∧ e = .epollCtl v ∧
       env'.log.getLast? = some (SysOp.epollCtlAdd epfd2 f t v))) := by
  unfold PidSet.init_epoll at h
  cases hc : env.creates with
  | nil => rw [hc] at h; exact absurd h (by simp)
  | cons c crest =>
    by_cases hneg : c < 0
    · simp only [hc, syserr, if_pos hneg, Option.some.injEq, Prod.mk.injEq] at h
      obtain ⟨hre, hs, -⟩ := h
      refine ⟨by rw [← hs], by rw [← hs], Or.inl ⟨c, hneg, ?_⟩⟩
      exact ((Except.error.injEq _ _).mp hre).symm
    · simp only [hc, syserr, if_neg hneg] at h
      cases hra : PidSet.registerAll c
          { env with creates := crest, log := env.log ++ [SysOp.epollCreate1 c] }
          s.fd_pids with
      | none => simp only [hra] at h; exact absurd h (by simp)
      | some res =>
        obtain ⟨r2, m1, env2⟩ := res
        cases r2 with
        | ok u =>
          simp only [hra, Option.some.injEq, Prod.mk.injEq] at h
          obtain ⟨hre, -, -⟩ := h
          exact absurd hre (by simp)
        | error e2 =>
          simp only [hra, Option.some.injEq, Prod.mk.injEq] at h
          obtain ⟨hre, hs, henv⟩ := h
          have he2 : e2 = e := (Except.error.injEq _ _).mp hre
          subst he2
          subst henv
          refine ⟨by rw [← hs], ?_, ?_⟩
          · rw [← hs]
            exact PidSet.registerAll_keys c _ _ _ _ _ hra
          · rcases PidSet.registerAll_error_last c _ _ _ _ _ hra with
              ⟨p, v, hv, hev, hp, hlast⟩ | ⟨v, f, t, hv, hev, hlast⟩
            · exact Or.inr (Or.inl ⟨p, v, hv, hev, hp, hlast⟩)
            · exact Or.inr (Or.inr ⟨c, v, f, t, hv, hev, hlast⟩)

/-! ### Master characterization of a completed `wait` call -/

theorem PidSet.wait_spec (env : Env) (s : PidSet) (n : Nat)
    (r : Except PidSetError Nat) (s' : PidSet) (env' : Env)
    (h : PidSet.wait env s n = some (r, s', env')) :
    ∃ drained : List PID,
      drained.Nodup ∧
      (∀ p ∈ drained, (PidMap.get s.fd_pids p).isSome) ∧
      (∀ q, ((PidMap.get s'.fd_pids q).isSome ↔
        ((PidMap.get s.fd_pids q).isSome ∧ q ∉ drained))) ∧
      (∀ p ∈ drained, PidMap.get s'.fd_pids p = none) ∧
      (∀ t, r = .ok t → n ≤ t ∧ t = drained.length) ∧
      (∀ tok, r = .error (.pidNotFound tok) → PidMap.get s'.fd_pids tok = none) := by
  unfold PidSet.wait at h
  cases hi : PidSet.init_epoll env s with
  | none => rw [hi] at h; exact absurd h (by simp)
  | some resi =>
    obtain ⟨ri, s1, env1⟩ := resi
    cases ri with
    | error e =>
      simp only [hi, Option.some.injEq, Prod.mk.injEq] at h
      obtain ⟨hre, hs, -⟩ := h
      subst hs
      obtain ⟨hep, hkeys, hshape⟩ := PidSet.init_epoll_error env s e s1 env1 hi
      refine ⟨[], by simp, by simp, ?_, by simp, fun t ht => ?_, fun tok htok => ?_⟩
      · intro q
        simp only [List.not_mem_nil, not_false_iff, and_true]
        rw [PidMap.get_isSome_of_keys_eq s1.fd_pids s.fd_pids hkeys q]
      · rw [← hre] at ht; exact absurd ht (by simp)
      · rw [← hre] at htok
        have he : e = .pidNotFound tok := (Except.error.injEq _ _).mp htok
        rcases hshape with ⟨c, -, hev⟩ | ⟨p, v, -, hev, -, -⟩ | ⟨e2, v, f, t2, -, hev, -⟩ <;>
          (rw [hev] at he; exact absurd he (by simp))
    | ok newfd =>
      simp only [hi] at h
      cases hw : PidSet.waitLoop (s.epoll_fd.getD newfd) s.fd_pids.length n
          env1.polls env1 s1 0 with
      | none => simp only [hw] at h; exact absurd h (by simp)
      | some resw =>
        obtain ⟨rw1, s2, env2, rest2⟩ := resw
        simp only [hw, Option.some.injEq, Prod.mk.injEq] at h
        obtain ⟨hrw, hs2, -⟩ := h
        subst hs2
        obtain ⟨hep1, hkeys, -, -, -⟩ := PidSet.init_epoll_ok env s newfd s1 env1 hi
        obtain ⟨dr, hnodup, hmem, hchar, hepw, hok, hnf⟩ :=
          PidSet.waitLoop_spec (s.epoll_fd.getD newfd) s.fd_pids.length n
            env1.polls env1 s1 0 rw1 s2 env2 rest2 hw
        refine ⟨dr, hnodup, ?_, ?_, ?_, fun t ht => ?_, fun tok htok => ?_⟩
        · intro p hp
          have h1 := hmem p hp
          rw [PidMap.get_isSome_of_keys_eq s1.fd_pids s.fd_pids hkeys p] at h1
          exact h1
        · intro q
          rw [hchar q]
          by_cases hq : q ∈ dr
          · simp [hq]
          · rw [if_neg hq]
            rw [PidMap.get_isSome_of_keys_eq s1.fd_pids s.fd_pids hkeys q]
            simp [hq]
        · intro p hp
          rw [hchar p, if_pos hp]
        · obtain ⟨ht1, ht2⟩ := hok t (by rw [hrw]; exact ht)
          refine ⟨ht2, by omega⟩
        · exact hnf tok (by rw [hrw]; exact htok)

/-! ### Claim theorems -/

/-- Claim C1: for every completed successful call `wait(n)` the returned
value `t` is the total number of exit events observed during that call —
there is a list of the delivered PIDs, of length exactly `t`, each of
which was tracked at entry — it is at least `n`, and every ready event
delivered in a consumed multiplexer-poll batch was processed: each
delivered PID is detached and removed from the tracked map (hence absent
from the final map), and none is counted twice. -/
theorem wait_returns_total_observed (env : Env) (s : PidSet) (n t : Nat)
    (s' : PidSet) (env' : Env)
    (h : PidSet.wait env s n = some (.ok t, s', env')) :
    n ≤ t ∧ ∃ delivered : List PID,
      delivered.length = t ∧ delivered.Nodup ∧
      (∀ p ∈ delivered, (PidMap.get s.fd_pids p).isSome) ∧
      (∀ p ∈ delivered, PidMap.get s'.fd_pids p = none) := by
  obtain ⟨dr, hnodup, hmem, hchar, hrm, hok, -⟩ := PidSet.wait_spec env s n _ s' env' h
  obtain ⟨hn, hlen⟩ := hok t rfl
  exact ⟨hn, dr, hlen.symm, hnodup, hmem, hrm⟩

/-- Claim C2: a completed successful `wait` call removes from the tracked
map exactly the PIDs delivered during that call: each delivered PID was
tracked at entry and is gone afterwards, no PID is delivered twice, and a
PID is tracked after the call iff it was tracked before and was not
delivered (so its exit can never be reported again, and undelivered PIDs
stay in the map). -/
theorem wait_removes_exactly_delivered (env : Env) (s : PidSet) (n t : Nat)
    (s' : PidSet) (env' : Env)
    (h : PidSet.wait env s n = some (.ok t, s', env')) :
    ∃ delivered : List PID,
      delivered.Nodup ∧
      (∀ p ∈ delivered,
        (PidMap.get s.fd_pids p).isSome ∧ PidMap.get s'.fd_pids p = none) ∧
      (∀ q, (PidMap.get s'.fd_pids q).isSome ↔
        ((PidMap.get s.fd_pids q).isSome ∧ q ∉ delivered)) := by
  obtain ⟨dr, hnodup, hmem, hchar, hrm, -, -⟩ := PidSet.wait_spec env s n _ s' env' h
  exact ⟨dr, hnodup, fun p hp => ⟨hmem p hp, hrm p hp⟩, hchar⟩

/-- Claim C8: the first conjunct shows that a delivered readiness token
with no matching entry in the tracked map makes the drain loop abort with
`PidNotFound` naming exactly that token, leaving the state as it was at
that point; the second shows that a `wait` call that completes with
`PidNotFound tok` leaves a well-defined map: `tok` is untracked, every
entry drained before the error is removed, and every other entry is still
present. -/
theorem wait_unknown_token :
    (∀ (epfd : FD) (tok : PID) (rest : List PID) (env : Env) (s : PidSet),
      PidMap.get s.fd_pids tok = none →
      PidSet.processBatch epfd (tok :: rest) env s =
        some (.error (.pidNotFound tok), s, env)) ∧
    (∀ (env : Env) (s : PidSet) (n : Nat) (tok : PID) (s' : PidSet) (env' : Env),
      PidSet.wait env s n = some (.error (.pidNotFound tok), s', env') →
      PidMap.get s'.fd_pids tok = none ∧
      ∃ drained : List PID, drained.Nodup ∧
        (∀ p ∈ drained,
          (PidMap.get s.fd_pids p).isSome ∧ PidMap.get s'.fd_pids p = none) ∧
        (∀ q, (PidMap.get s'.fd_pids q).isSome ↔
          ((PidMap.get s.fd_pids q).isSome ∧ q ∉ drained))) := by
  constructor
  · intro epfd tok rest env s hget
    rw [PidSet.processBatch]
    simp only [hget]
  · intro env s n tok s' env' h
    obtain ⟨dr, hnodup, hmem, hchar, hrm, -, hnf⟩ := PidSet.wait_spec env s n _ s' env' h
    exact ⟨hnf tok rfl, dr, hnodup, fun p hp => ⟨hmem p hp, hrm p hp⟩, hchar⟩

/-- Claim C9: the public operations are the shared primitive at fixed
arguments: `wait_any()` is exactly `wait(1)` and `wait_all()` is exactly
`wait(len(fd_pids))` (the tracked-map size at the moment of the call),
with the success value discarded and state, environment and errors
propagated unchanged. -/
theorem wait_any_wait_all_are_wait (env : Env) (s : PidSet) :
    PidSet.wait_any env s =
      (PidSet.wait env s 1).map (fun x => (x.1.map (fun _ => ()), x.2)) ∧
    PidSet.wait_all env s =
      (PidSet.wait env s s.fd_pids.length).map
        (fun x => (x.1.map (fun _ => ()), x.2)) := by
  constructor
  · unfold PidSet.wait_any
    cases h : PidSet.wait env s 1 with
    | none => rfl
    | some res =>
      obtain ⟨r, s1, env1⟩ := res
      cases r <;> rfl
  · unfold PidSet.wait_all
    cases h : PidSet.wait env s s.fd_pids.length with
    | none => rfl
    | some res =>
      obtain ⟨r, s1, env1⟩ := res
      cases r <;> rfl

/-- Claim C3 (code evaluated at the failing input): a `wait` call on a
`PidSet` whose multiplexer already exists (`epoll_fd = some 5`) still
performs a second `epoll_create1` (returning fd `7`), re-opens and
re-registers the remaining PID on the new fd, and overwrites the stored
`epoll_fd` with `7` — while the poll itself still uses the old fd `5` —
because `unwrap_or` evaluates its `init_epoll` argument eagerly on every
call.  The claim that the multiplexer is created at most once and reused
is therefore violated by the code. -/
theorem wait_reinitializes_every_call :
    PidSet.wait ⟨[7], [11], [0, 0], [.ok [4]], [], []⟩ ⟨[(4, 9)], some 5⟩ 1 =
      some (.ok 1, ⟨[], some 7⟩,
        ⟨[], [], [], [], [],
          [SysOp.epollCreate1 7, SysOp.pidfdOpen 4 11, SysOp.epollCtlAdd 7 11 4 0,
           SysOp.epollWaitCall 5 1 (.ok [4]), SysOp.epollCtlDel 5 11 0]⟩) := rfl

/-- Claim C4 (counterexample): a concrete completed `wait` call in which
the detach (`EPOLL_CTL_DEL`) of the delivered PID `4` fails: the call
aborts with the detach error (labelled `EpollWait` by the source) and the
entry for PID `4` is still in the tracked map of the returned state —
the removal did *not* proceed, refuting the claim. -/
theorem wait_detach_failure_cex :
    PidSet.wait ⟨[5], [9], [0, -1], [.ok [4]], [], []⟩ (PidSet.new [4]) 1 =
      some (.error (.epollWait (-1)), ⟨[(4, 9)], some 5⟩,
        ⟨[], [], [], [], [],
          [SysOp.epollCreate1 5, SysOp.pidfdOpen 4 9, SysOp.epollCtlAdd 5 9 4 0,
           SysOp.epollWaitCall 5 1 (.ok [4]), SysOp.epollCtlDel 5 9 (-1)]⟩) ∧
    PidMap.get [(4, 9)] 4 = some 9 := ⟨rfl, rfl⟩

/-- Claim C4 (amended): when detaching a delivered PID's handle from the
multiplexer fails during the drain loop of a wait call, the failure is
surfaced (as an `EpollWait`-labelled error) and aborts the drain
immediately, and the PID's entry is *not* removed: the tracked map is
returned unchanged, with the entry still present. -/
theorem processBatch_detach_failure_aborts (epfd : FD) (tok : PID)
    (rest : List PID) (env : Env) (s : PidSet) (fd : FD) (c : Int)
    (crest : List Int) (hget : PidMap.get s.fd_pids tok = some fd)
    (hc : env.ctls = c :: crest) (hneg : c < 0) :
    PidSet.processBatch epfd (tok :: rest) env s =
      some (.error (.epollWait c), s,
        { env with
          ctls := crest,
          log := env.log ++ [SysOp.epollCtlDel epfd fd c] }) := by
  rw [PidSet.processBatch]
  simp only [hget, PidSet.deregister_pid, hc, syserr, if_pos hneg]

/-- Claim C5 (counterexample): `close()` on a `PidSet` that never saw a
wait (`epoll_fd = none`) still performs the full lazy initialization, so
on a tracked PID whose `pidfd_open` fails (e.g. the process does not
exist) it returns `PidFdOpenSyscall` instead of succeeding: close *can*
fail on account of the tracked PIDs, refuting the claim. -/
theorem close_uninitialized_fails_cex :
    PidSet.close ⟨[3], [-1], [], [], [0], []⟩ (PidSet.new [7]) =
      some (.error (.pidFdOpenSyscall 7 (-1)),
        ⟨[], [], [], [], [0],
          [SysOp.epollCreate1 3, SysOp.pidfdOpen 7 (-1)]⟩) := rfl

/-- Claim C5 (amended): `close()` on any `PidSet` — in particular one on
which no wait ever ran, so that no multiplexer exists yet — first
performs the same lazy initialization as `wait` and then closes the
unwrapped multiplexer fd; it succeeds whenever that initialization
succeeds (e.g. when every tracked PID's handle can be acquired and
attached) and the `close` syscall succeeds.  It does not require a
pre-existing multiplexer, but it can fail on account of the tracked
PIDs when registering one of them fails. -/
theorem close_succeeds_when_init_succeeds (env : Env) (s : PidSet) (epfd : FD)
    (s1 : PidSet) (env1 : Env) (c : Int) (crest : List Int)
    (hinit : PidSet.init_epoll env s = some (.ok epfd, s1, env1))
    (hc : env1.closes = c :: crest) (hpos : 0 ≤ c) :
    PidSet.close env s =
      some (.ok (),
        { env1 with
          closes := crest,
          log := env1.log ++ [SysOp.closeCall (s.epoll_fd.getD epfd) c] }) := by
  unfold PidSet.close
  simp only [hinit, hc, syserr, if_neg (not_lt.mpr hpos)]

/-- Claim C6: for a `PidSet` built from the empty PID set, `wait_all()`
completes successfully and immediately whenever the single multiplexer
creation succeeds: the underlying `wait` returns `Ok 0` (zero exit events
observed), the poll script is untouched and the log gains only the
`epoll_create1` record — the multiplexer is never polled, so the call
cannot block. -/
theorem wait_all_empty_fast_path (env : Env) (c : Int) (crest : List Int)
    (hc : env.creates = c :: crest) (hpos : 0 ≤ c) :
    PidSet.new [] = (⟨[], none⟩ : PidSet) ∧
    PidSet.wait env ⟨[], none⟩ 0 = some (.ok 0, ⟨[], some c⟩,
      { env with creates := crest, log := env.log ++ [SysOp.epollCreate1 c] }) ∧
    PidSet.wait_all env ⟨[], none⟩ = some (.ok (), ⟨[], some c⟩,
      { env with creates := crest, log := env.log ++ [SysOp.epollCreate1 c] }) := by
  have h1 : PidSet.init_epoll env ⟨[], none⟩ = some (.ok c, ⟨[], some c⟩,
      { env with creates := crest, log := env.log ++ [SysOp.epollCreate1 c] }) := by
    unfold PidSet.init_epoll
    simp only [hc, syserr, if_neg (not_lt.mpr hpos), PidSet.registerAll]
  have h2 : PidSet.wait env ⟨[], none⟩ 0 = some (.ok 0, ⟨[], some c⟩,
      { env with creates := crest, log := env.log ++ [SysOp.epollCreate1 c] }) := by
    unfold PidSet.wait
    simp only [h1]
    rw [PidSet.waitLoop_stop _ _ _ _ _ _ _ (by simp)]
  refine ⟨rfl, h2, ?_⟩
  unfold PidSet.wait_all
  simp only [List.length_nil, h2]

/-- Claim C7: initialization first creates exactly one multiplexer
handle — if that creation fails the error is surfaced as `EpollCreate`
with nothing else attempted and the state untouched (first conjunct);
on success (second conjunct) the log extension is the single creation
record followed only by acquire/attach records, and every tracked PID was
acquired (a nonnegative pidfd) and attached to that multiplexer with
token equal to the PID itself; if any acquisition or attachment fails
(third conjunct), initialization aborts — the stored `epoll_fd` is not
updated and the failing syscall is the last one performed — surfacing
that first error. -/
theorem init_epoll_protocol :
    (∀ (env : Env) (s : PidSet) (c : Int) (crest : List Int),
      env.creates = c :: crest → c < 0 →
      PidSet.init_epoll env s = some (.error (.epollCreate c), s,
        { env with creates := crest, log := env.log ++ [SysOp.epollCreate1 c] })) ∧
    (∀ (env : Env) (s : PidSet) (epfd : FD) (s' : PidSet) (env' : Env),
      PidSet.init_epoll env s = some (.ok epfd, s', env') →
      s'.epoll_fd = some epfd ∧
      s'.fd_pids.map Prod.fst = s.fd_pids.map Prod.fst ∧
      (∃ crest, env.creates = epfd :: crest ∧ 0 ≤ epfd) ∧
      (∃ L, env'.log = env.log ++ SysOp.epollCreate1 epfd :: L ∧
        ∀ op ∈ L, (∃ p v, op = SysOp.pidfdOpen p v) ∨
          (∃ f t v, op = SysOp.epollCtlAdd epfd f t v)) ∧
      (∀ p, p ∈ s.fd_pids.map Prod.fst →
        ∃ fd v, 0 ≤ fd ∧ 0 ≤ v ∧ SysOp.pidfdOpen p fd ∈ env'.log ∧
          SysOp.epollCtlAdd epfd fd p v ∈ env'.log)) ∧
    (∀ (env : Env) (s : PidSet) (e : PidSetError) (s' : PidSet) (env' : Env),
      PidSet.init_epoll env s = some (.error e, s', env') →
      s'.epoll_fd = s.epoll_fd ∧
      s'.fd_pids.map Prod.fst = s.fd_pids.map Prod.fst ∧
      ((∃ c, c < 0 ∧ e = .epollCreate c) ∨
       (∃ p v, v < 0 ∧ e = .pidFdOpenSyscall p v ∧ p ∈ s.fd_pids.map Prod.fst ∧
         env'.log.getLast? = some (SysOp.pidfdOpen p v)) ∨
       (∃ epfd2 v f t, v < 0 ∧ e = .epollCtl v ∧
         env'.log.getLast? = some (SysOp.epollCtlAdd epfd2 f t v)))) :=
  ⟨fun env s c crest hc hneg => PidSet.init_epoll_create_fail env s c crest hc hneg,
   fun env s epfd s' env' h => PidSet.init_epoll_ok env s epfd s' env' h,
   fun env s e s' env' h => PidSet.init_epoll_error env s e s' env' h⟩

/-- Claim C10: a completed `wait(n)` call with `n ≥ 1` on a `PidSet`
whose tracked map is empty (after a successful multiplexer creation) does
not block and does not succeed: `max_events = len(fd_pids) = 0` is passed
to `epoll_wait`, which rejects it (`EINVAL`), so the call returns the
`EpollWait` error; the log records the poll attempt with a maxevents
argument of zero. -/
theorem wait_empty_tracked_errors (env : Env) (s : PidSet) (n : Nat) (c : Int)
    (crest : List Int) (hs : s.fd_pids = []) (hn : 1 ≤ n)
    (hc : env.creates = c :: crest) (hpos : 0 ≤ c) :
    PidSet.wait env s n = some (.error (.epollWait (-1)), ⟨[], some c⟩,
      { env with
        creates := crest,
        log := env.log ++ [SysOp.epollCreate1 c,
          SysOp.epollWaitCall (s.epoll_fd.getD c) 0 (.error (-1))] }) := by
  have h1 : PidSet.init_epoll env s = some (.ok c, ⟨[], some c⟩,
      { env with creates := crest, log := env.log ++ [SysOp.epollCreate1 c] }) := by
    unfold PidSet.init_epoll
    simp only [hc, syserr, if_neg (not_lt.mpr hpos), hs, PidSet.registerAll]
  unfold PidSet.wait
  simp only [h1, hs, List.length_nil]
  rw [PidSet.waitLoop_einval _ _ _ _ _ _ (by omega)]
  simp [List.append_assoc]

/-! ### Witnesses -/

theorem wait_returns_total_observed_witness :
    1 ≤ 2 ∧ ∃ delivered : List PID,
      delivered.length = 2 ∧ delivered.Nodup ∧
      (∀ p ∈ delivered, (PidMap.get (PidSet.new [1, 2]).fd_pids p).isSome) ∧
      (∀ p ∈ delivered, PidMap.get (⟨[], some 3⟩ : PidSet).fd_pids p = none) :=
  wait_returns_total_observed ⟨[3], [10, 11], [0, 0, 0, 0], [.ok [1, 2]], [], []⟩
    (PidSet.new [1, 2]) 1 2 ⟨[], some 3⟩
    ⟨[], [], [], [], [],
      [SysOp.epollCreate1 3, SysOp.pidfdOpen 1 10, SysOp.epollCtlAdd 3 10 1 0,
       SysOp.pidfdOpen 2 11, SysOp.epollCtlAdd 3 11 2 0,
       SysOp.epollWaitCall 3 2 (.ok [1, 2]), SysOp.epollCtlDel 3 10 0,
       SysOp.epollCtlDel 3 11 0]⟩ rfl

theorem wait_removes_exactly_delivered_witness :
    ∃ delivered : List PID,
      delivered.Nodup ∧
      (∀ p ∈ delivered, (PidMap.get (PidSet.new [4]).fd_pids p).isSome ∧
        PidMap.get (⟨[], some 3⟩ : PidSet).fd_pids p = none) ∧
      (∀ q, (PidMap.get (⟨[], some 3⟩ : PidSet).fd_pids q).isSome ↔
        ((PidMap.get (PidSet.new [4]).fd_pids q).isSome ∧ q ∉ delivered)) :=
  wait_removes_exactly_delivered ⟨[3], [10], [0, 0], [.ok [4]], [], []⟩
    (PidSet.new [4]) 1 1 ⟨[], some 3⟩
    ⟨[], [], [], [], [],
      [SysOp.epollCreate1 3, SysOp.pidfdOpen 4 10, SysOp.epollCtlAdd 3 10 4 0,
       SysOp.epollWaitCall 3 1 (.ok [4]), SysOp.epollCtlDel 3 10 0]⟩ rfl

theorem processBatch_detach_failure_aborts_witness :
    PidSet.processBatch 5 [4] ⟨[], [], [-1], [], [], []⟩ ⟨[(4, 9)], some 5⟩ =
      some (.error (.epollWait (-1)), ⟨[(4, 9)], some 5⟩,
        ⟨[], [], [], [], [], [SysOp.epollCtlDel 5 9 (-1)]⟩) :=
  processBatch_detach_failure_aborts 5 4 [] ⟨[], [], [-1], [], [], []⟩
    ⟨[(4, 9)], some 5⟩ 9 (-1) [] rfl rfl (by decide)

theorem close_succeeds_when_init_succeeds_witness :
    PidSet.close ⟨[3], [10], [0], [], [0], []⟩ (PidSet.new [4]) =
      some (.ok (),
        ⟨[], [], [], [], [],
          [SysOp.epollCreate1 3, SysOp.pidfdOpen 4 10, SysOp.epollCtlAdd 3 10 4 0,
           SysOp.closeCall 3 0]⟩) :=
  close_succeeds_when_init_succeeds ⟨[3], [10], [0], [], [0], []⟩ (PidSet.new [4]) 3
    ⟨[(4, 10)], some 3⟩
    ⟨[], [], [], [], [0],
      [SysOp.epollCreate1 3, SysOp.pidfdOpen 4 10, SysOp.epollCtlAdd 3 10 4 0]⟩
    0 [] rfl rfl (by decide)

theorem wait_all_empty_fast_path_witness :
    PidSet.new [] = (⟨[], none⟩ : PidSet) ∧
    PidSet.wait ⟨[3], [], [], [], [], []⟩ ⟨[], none⟩ 0 = some (.ok 0, ⟨[], some 3⟩,
      ⟨[], [], [], [], [], [SysOp.epollCreate1 3]⟩) ∧
    PidSet.wait_all ⟨[3], [], [], [], [], []⟩ ⟨[], none⟩ = some (.ok (), ⟨[], some 3⟩,
      ⟨[], [], [], [], [], [SysOp.epollCreate1 3]⟩) :=
  wait_all_empty_fast_path ⟨[3], [], [], [], [], []⟩ 3 [] rfl (by decide)

theorem init_epoll_protocol_witness :
    PidSet.init_epoll ⟨[-1], [], [], [], [], []⟩ (PidSet.new [4]) =
      some (.error (.epollCreate (-1)), PidSet.new [4],
        ⟨[], [], [], [], [], [SysOp.epollCreate1 (-1)]⟩) :=
  init_epoll_protocol.1 ⟨[-1], [], [], [], [], []⟩ (PidSet.new [4]) (-1) [] rfl (by decide)

theorem wait_unknown_token_witness :
    PidSet.processBatch 5 [99] ⟨[], [], [], [], [], []⟩ ⟨[(4, 9)], some 5⟩ =
      some (.error (.pidNotFound 99), ⟨[(4, 9)], some 5⟩, ⟨[], [], [], [], [], []⟩) :=
  wait_unknown_token.1 5 99 [] ⟨[], [], [], [], [], []⟩ ⟨[(4, 9)], some 5⟩ rfl

theorem wait_empty_tracked_errors_witness :
    PidSet.wait ⟨[3], [], [], [.ok [9]], [], []⟩ ⟨[], none⟩ 1 =
      some (.error (.epollWait (-1)), ⟨[], some 3⟩,
        ⟨[], [], [], [.ok [9]], [],
          [SysOp.epollCreate1 3, SysOp.epollWaitCall 3 0 (.error (-1))]⟩) :=
  wait_empty_tracked_errors ⟨[3], [], [], [.ok [9]], [], []⟩ ⟨[], none⟩ 1 3 [] rfl
    (le_refl 1) rfl (by decide)
